import Mathlib

/-!
Verification of the parsing-and-variable-resolution pipeline of
`internal/hcl/parser.go` (infracost HCL parser).

The Go code is shallowly embedded: pure helpers become Lean functions, the
file system and process environment become an explicit oracle structure
(`FS`), Go's `map[string]cty.Value` becomes an association list (`VarMap`)
whose `insert` overwrites the previous binding for a key, and fallible
operations return `Except String` or carry an `Option String` error
component.  External collaborators that the spec declares out of scope
(the HCL expression evaluator, the module loader, the remote variables
loader, `loadBlocksFromFile` from a file of the repository that is not in
`src/`) are modelled as data oracles carried by the inputs.
-/

namespace Infracost

/-- Model of `cty.Value`: a typed HCL value.  `nilVal` stands for
`cty.NilVal`, the "value not set" result an attribute expression degrades
to when its evaluation fails. -/
inductive CtyValue where
  | nilVal : CtyValue
  | str : String → CtyValue
  | num : Int → CtyValue
  | boolV : Bool → CtyValue
deriving DecidableEq, Repr

/-- Model of Go's `map[string]cty.Value` as an association list.  The first
binding for a key is the current one; `insert` removes any previous binding
for the key before prepending the new one. -/
abbrev VarMap := List (String × CtyValue)

/-- Current value for a key: the first binding in the list. -/
def VarMap.find : VarMap → String → Option CtyValue
  | [], _ => none
  | kv :: rest, k => if kv.1 = k then some kv.2 else VarMap.find rest k

/-- Remove every binding of a key. -/
def VarMap.eraseKey : VarMap → String → VarMap
  | [], _ => []
  | kv :: rest, k =>
      if kv.1 = k then VarMap.eraseKey rest k else kv :: VarMap.eraseKey rest k

/-- Map assignment `m[k] = v`: overwrite any previous binding of `k`. -/
def VarMap.insert (m : VarMap) (k : String) (v : CtyValue) : VarMap :=
  (k, v) :: m.eraseKey k

/-- Keys of a variable map have no duplicates (always true of a Go map;
maintained by `VarMap.insert`). -/
def NodupKeys (m : VarMap) : Prop := (m.map Prod.fst).Nodup

/-- Last-wins lookup over a list of bindings: the value of the latest
binding of `k`, mirroring what a sequence of Go map assignments leaves
behind for key `k`. -/
def lookupLast : VarMap → String → Option CtyValue
  | [], _ => none
  | kv :: rest, k =>
      match lookupLast rest k with
      | some v => some v
      | none => if kv.1 = k then some kv.2 else none

/-- First-some choice on optional values, `Option.orElse` without the
thunk. -/
def orOpt (a b : Option CtyValue) : Option CtyValue :=
  match a with
  | some v => some v
  | none => b

/-- Merging one Go map into another: `for k, v := range es { m[k] = v }`. -/
def mergeInto (m : VarMap) (es : VarMap) : VarMap :=
  es.foldl (fun acc kv => acc.insert kv.1 kv.2) m

/-- Boolean success test for `Except`. -/
def eIsOk {ε α : Type} : Except ε α → Bool
  | Except.ok _ => true
  | Except.error _ => false

/-- Split a character list at every `'='`, the character-level core of Go's
`strings.Split(s, "=")`. -/
def splitCharsOnEq : List Char → List (List Char)
  | [] => [[]]
  | c :: rest =>
      let r := splitCharsOnEq rest
      if c = '=' then [] :: r
      else
        match r with
        | [] => [[c]]
        | seg :: segs => (c :: seg) :: segs

/-- Model of Go's `strings.Split(s, "=")`. -/
def splitOnEq (s : String) : List String :=
  (splitCharsOnEq s.toList).map (fun cs => String.mk cs)

/-- Model of `strings.HasPrefix(s, "TF_VAR_")` combined with
`s[len("TF_VAR_"):]`: strips the fixed seven-character marker when
present. -/
def stripTfVar (s : String) : Option String :=
  match s.toList with
  | 'T' :: 'F' :: '_' :: 'V' :: 'A' :: 'R' :: '_' :: rest => some (String.mk rest)
  | _ => none

/-- Model of `strings.HasSuffix`. -/
def strEndsWith (s pat : String) : Bool :=
  List.isSuffixOf pat.toList s.toList

/-- Model of `path.Join` / `filepath.Join` for the clean relative names the
claims use (no duplicated separators or dot segments). -/
def pathJoin (a b : String) : String := a ++ "/" ++ b

/-- One result of evaluating a tfvars attribute expression in an empty
`hcl.EvalContext`: the attribute name, the value `attr.Expr.Value`
returned (for a malformed expression this is the not-set `nilVal`), and
whether evaluation reported diagnostics (which `loadVarFile` discards). -/
structure VarAttr where
  name : String
  value : CtyValue
  evalErr : Bool
deriving DecidableEq, Repr

/-- Parse result of the content of one variable file, as produced by the
external HCL library: whether `hclsyntax.ParseConfig` /
`Body.JustAttributes` reported diagnostics (both are discarded by
`loadVarFile`), and the best-effort attribute list they recovered.  A Go
map of attributes keyed by name has unique names; the list records them in
some iteration order. -/
structure VarFileSrc where
  parseErrors : Bool
  attrs : List VarAttr
deriving DecidableEq, Repr

/-- A raw top-level block as recovered from a parsed file.  Modelled from
the spec: a block keeps a reference to its originating filename for
diagnostics; the payload of a block is outside this core. -/
structure RawBlock where
  filename : String
  tag : Nat
deriving DecidableEq, Repr

/-- Modelled from the spec: `BlockBuilder.NewBlock` (defined in a file of
this repository outside `src/`) wraps a raw parsed block, attaching derived
context attributes; the wrapped block keeps its originating file. -/
structure Block where
  raw : RawBlock
  built : Bool
deriving DecidableEq, Repr

/-- Modelled from the spec: the pluggable construction step applied to each
raw block. -/
def newBlock (rb : RawBlock) : Block := { raw := rb, built := true }

abbrev Blocks := List Block

instance {ε α : Type} [DecidableEq ε] [DecidableEq α] : DecidableEq (Except ε α) := fun x y =>
  match x, y with
  | Except.ok a, Except.ok b =>
      match decEq a b with
      | isTrue h => isTrue (by rw [h])
      | isFalse h => isFalse (by intro hh; injection hh; contradiction)
  | Except.error a, Except.error b =>
      match decEq a b with
      | isTrue h => isTrue (by rw [h])
      | isFalse h => isFalse (by intro hh; injection hh; contradiction)
  | Except.ok _, Except.error _ => isFalse (by intro hh; injection hh)
  | Except.error _, Except.ok _ => isFalse (by intro hh; injection hh)

/-- One directory entry as seen by `os.ReadDir` / `ioutil.ReadDir`,
together with the oracle outcomes of the external operations the parser
applies to it: whether reading the file fails (`ParseHCLFile` then returns
a diagnostic and caches nothing), whether parsing its content reports
diagnostics (the partial file is still cached by `hclparse`), and the
result of `loadBlocksFromFile` on the (possibly partial) parsed file.
`loadBlocksFromFile` lives in a file of this repository outside `src/` and
is modelled from the spec: it extracts the file's top-level blocks and may
fail per file. -/
structure DirEntry where
  name : String
  isDir : Bool
  readErr : Bool
  parseErrs : Bool
  blocksResult : Except String (List RawBlock)
deriving DecidableEq, Repr

/-- File-system and process-environment oracle: `os.Stat` success,
`os.ReadDir` (`none` models a read error), `os.ReadFile` of a variable
file together with its parse outcome (`none` models a read error), and
`os.Environ`. -/
structure FS where
  statOk : String → Bool
  readDir : String → Option (List DirEntry)
  readFile : String → Option VarFileSrc
  environ : List String

/-- The `Parser` state, restricted to the fields the embedded operations
read or write.  `tfEnvVars` and `inputVars` are `Option VarMap` because the
corresponding Go maps can be nil, which `loadVars` distinguishes from an
empty map.  `remoteVariablesLoader` models the optional external remote
loader by the outcome its single `Load` call would produce.  `hasWarnFn`
records whether a warning sink was supplied. -/
structure Parser where
  initialPath : String
  tfEnvVars : Option VarMap
  defaultVarFiles : List String
  tfvarsPaths : List String
  inputVars : Option VarMap
  stopOnHCLError : Bool
  workspaceName : String
  remoteVariablesLoader : Option (Except String VarMap)
  hasWarnFn : Bool
deriving DecidableEq, Repr

/-- Environment-variable source of `OptionWithTFEnvVars`: an `os.Environ`
entry contributes a variable exactly when it starts with the `TF_VAR_`
marker and the remainder splits on `"="` into exactly two pieces; the
first piece is the variable name and the second the string value. -/
def parseEnvEntry (v : String) : Option (String × String) :=
  match stripTfVar v with
  | none => none
  | some rest =>
      match splitOnEq rest with
      | [a, b] => some (a, b)
      | _ => none

/-- The body of `OptionWithTFEnvVars`: fold the recognized `os.Environ`
entries into a fresh map, then overlay the project-scoped entries, whose
values are taken verbatim (no split). -/
def tfEnvVarsOf (environ : List String) (projectEnv : List (String × String)) : VarMap :=
  projectEnv.foldl
    (fun m kv =>
      match stripTfVar kv.1 with
      | some n => m.insert n (CtyValue.str kv.2)
      | none => m)
    (environ.foldl
      (fun m v =>
        match parseEnvEntry v with
        | some ab => m.insert ab.1 (CtyValue.str ab.2)
        | none => m) [])

/-- The loop of `OptionWithTFVarsPaths`: join each requested name to the
initial path, keep it when `os.Stat` succeeds, otherwise drop it with a
warning.  Returns the kept paths and the warnings, each in request
order. -/
def tfvarsPathsScan (fs : FS) (base : String) : List String → List String × List String
  | [] => ([], [])
  | name :: rest =>
      let tfvp := pathJoin base name
      let r := tfvarsPathsScan fs base rest
      if fs.statOk tfvp then (tfvp :: r.1, r.2)
      else (r.1, ("passed tfvar file does not exist at " ++ tfvp) :: r.2)

/-- The functional options recognized by `New`.  The remote-loader option
carries the outcome its constructed loader's `Load` call would later
produce (the loader itself is external). -/
inductive POption where
  | withTFVarsPaths (paths : List String)
  | stopOnHCLError
  | withTFEnvVars (projectEnv : List (String × String))
  | withPlanFlagVars (vs : List String)
  | withInputVars (vars : List (String × String))
  | withRemoteVarLoader (host token localWorkspace : String) (result : Except String VarMap)
  | withWorkspaceName (n : String)
  | withWarningFn

/-- Application of one functional option to the parser, returning the
updated parser and the warnings the option logged. -/
def applyOption (fs : FS) (o : POption) (p : Parser) : Parser × List String :=
  match o with
  | POption.withTFVarsPaths paths =>
      let r := tfvarsPathsScan fs p.initialPath paths
      ({ p with tfvarsPaths := r.1 }, r.2)
  | POption.stopOnHCLError => ({ p with stopOnHCLError := true }, [])
  | POption.withTFEnvVars projectEnv =>
      ({ p with tfEnvVars := some (tfEnvVarsOf fs.environ projectEnv) }, [])
  | POption.withPlanFlagVars vs =>
      let m0 : VarMap := p.inputVars.getD []
      let m := vs.foldl
        (fun m v =>
          match splitOnEq v with
          | [a, b] => m.insert a (CtyValue.str b)
          | _ => m) m0
      ({ p with inputVars := some m }, [])
  | POption.withInputVars vars =>
      let m0 : VarMap := p.inputVars.getD []
      let m := vars.foldl (fun m kv => m.insert kv.1 (CtyValue.str kv.2)) m0
      ({ p with inputVars := some m }, [])
  | POption.withRemoteVarLoader host token _ result =>
      if host = "" ∨ token = "" then (p, [])
      else ({ p with remoteVariablesLoader := some result }, [])
  | POption.withWorkspaceName n => ({ p with workspaceName := n }, [])
  | POption.withWarningFn => ({ p with hasWarnFn := true }, [])

/-- Discovery of default variable files in `New`: `terraform.tfvars`, its
`.json` sibling (each when `os.Stat` succeeds), then every directory entry
matching the auto-loaded suffixes, in listing order.  The `os.ReadDir`
error is discarded, so a failed listing contributes nothing. -/
def discoverDefaultVarFiles (fs : FS) (initialPath : String) : List String :=
  let primary := pathJoin initialPath "terraform.tfvars"
  (if fs.statOk primary then [primary] else [])
    ++ (if fs.statOk (primary ++ ".json") then [primary ++ ".json"] else [])
    ++ (match fs.readDir initialPath with
        | none => []
        | some infos =>
            infos.filterMap (fun e =>
              if strEndsWith e.name ".auto.tfvars" || strEndsWith e.name ".auto.tfvars.json"
              then some (pathJoin initialPath e.name) else none))

/-- The constructor `New`: build the base parser, compute the default
variable files, then apply the options in order, collecting their
warnings.  `New` is total: it never fails, whatever the file system
does. -/
def New (fs : FS) (initialPath : String) (options : List POption) : Parser × List String :=
  let base : Parser :=
    { initialPath := initialPath
      tfEnvVars := none
      defaultVarFiles := discoverDefaultVarFiles fs initialPath
      tfvarsPaths := []
      inputVars := none
      stopOnHCLError := false
      workspaceName := "default"
      remoteVariablesLoader := none
      hasWarnFn := false }
  options.foldl
    (fun pw o => ((applyOption fs o pw.1).1, pw.2 ++ (applyOption fs o pw.1).2)) (base, [])

/-- The function `loadVarFile`: the empty filename yields an empty map; an
unreadable file is the only error; otherwise every recovered attribute is
assigned its evaluated value, with all parse and evaluation diagnostics
discarded. -/
def loadVarFile (fs : FS) (filename : String) : Except String VarMap :=
  if filename = "" then Except.ok []
  else
    match fs.readFile filename with
    | none => Except.error ("could not read file " ++ filename)
    | some src =>
        Except.ok (src.attrs.foldl (fun m a => m.insert a.name a.value) [])

/-- The default-variable-files loop of `loadVars`: each file that loads is
merged over the accumulated map; a file that fails to load is skipped. -/
def mergeDefaultFiles (fs : FS) (c : VarMap) : List String → VarMap
  | [] => c
  | name :: rest =>
      match loadVarFile fs name with
      | Except.error _ => mergeDefaultFiles fs c rest
      | Except.ok vars => mergeDefaultFiles fs (mergeInto c vars) rest

/-- The explicit-variable-files loop of `loadVars`: each file that loads is
merged; the first failure aborts with the wrapped error of
`loadAndCombineVars`, returning the map merged so far. -/
def mergeExplicitFiles (fs : FS) (c : VarMap) : List String → VarMap × Option String
  | [] => (c, none)
  | name :: rest =>
      match loadVarFile fs name with
      | Except.error e => (c, some ("failed to load the tfvars. " ++ e))
      | Except.ok vars => mergeExplicitFiles fs (mergeInto c vars) rest

/-- Writing the combined map back through the aliased receiver field: in Go
`combinedVars` starts as the very map object `p.tfEnvVars` when that field
is non-nil, so every later merge mutates the field; a nil field gets a
fresh map and stays nil. -/
def Parser.storeEnv (p : Parser) (m : VarMap) : Parser :=
  match p.tfEnvVars with
  | some _ => { p with tfEnvVars := some m }
  | none => p

/-- The tail of `loadVars` after the remote step: default files, explicit
files (fatal on failure), then the direct-input map. -/
def Parser.loadVarsRest (p : Parser) (fs : FS) (c : VarMap) (filenames : List String) :
    Parser × VarMap × Option String :=
  match mergeExplicitFiles fs (mergeDefaultFiles fs c p.defaultVarFiles) filenames with
  | (c2, some e) => (p.storeEnv c2, c2, some e)
  | (c2, none) =>
      (p.storeEnv (mergeInto c2 (p.inputVars.getD [])), mergeInto c2 (p.inputVars.getD []), none)

/-- The function `Parser.loadVars`: start from the (aliased) environment
map, merge the remote result when a remote loader is configured — a remote
failure is returned as the error together with the map assembled so far —
then run the remaining stages.  The `blocks` argument is what Go passes to
the remote loader's `Load`; the loader being external, its outcome is the
data already carried by the parser. -/
def Parser.loadVars (p : Parser) (fs : FS) (blocks : Blocks) (filenames : List String) :
    Parser × VarMap × Option String :=
  match p.remoteVariablesLoader with
  | some (Except.error e) => (p.storeEnv (p.tfEnvVars.getD []), p.tfEnvVars.getD [], some e)
  | some (Except.ok remoteVars) =>
      p.loadVarsRest fs (mergeInto (p.tfEnvVars.getD []) remoteVars) filenames
  | none => p.loadVarsRest fs (p.tfEnvVars.getD []) filenames

/-- A parsed file as returned by `hclparse.Parser.Files()`: its path and
the `loadBlocksFromFile` outcome (the latter modelled from the spec, see
`DirEntry`). -/
structure HclFile where
  filename : String
  blocksResult : Except String (List RawBlock)
deriving DecidableEq, Repr

/-- Error message for a directory that cannot be listed. -/
def readDirErr (p : String) : String := "could not read dir " ++ p

/-- Diagnostic for a recognized file that cannot be read. -/
def readDiag (p : String) : String := "could not read file: " ++ p

/-- Diagnostic for a recognized file whose content fails to parse. -/
def parseDiag (p : String) : String := "hcl parsing err: " ++ p

/-- The entry loop of `loadDirectory`: directories and unrecognized names
are skipped; a recognized file that cannot be read is a diagnostic error
(fatal in strict mode, otherwise skipped with a warning and not cached); a
recognized file with parse errors is a diagnostic error too, but the
partial file is already cached by `hclparse`, so in non-strict mode it is
warned about yet still appears in the returned files; a clean file is
cached silently. -/
def loadDirFiles (fullPath : String) (stop : Bool) :
    List DirEntry → Except String (List HclFile × List String)
  | [] => Except.ok ([], [])
  | e :: rest =>
      if e.isDir then loadDirFiles fullPath stop rest
      else if ¬(strEndsWith e.name ".tf" || strEndsWith e.name ".tf.json") then
        loadDirFiles fullPath stop rest
      else
        let p := pathJoin fullPath e.name
        if e.readErr then
          if stop then Except.error (readDiag p)
          else
            match loadDirFiles fullPath stop rest with
            | Except.error err => Except.error err
            | Except.ok fw => Except.ok (fw.1, ("skipping file: " ++ p) :: fw.2)
        else if e.parseErrs then
          if stop then Except.error (parseDiag p)
          else
            match loadDirFiles fullPath stop rest with
            | Except.error err => Except.error err
            | Except.ok fw =>
                Except.ok (⟨p, e.blocksResult⟩ :: fw.1, ("skipping file: " ++ p) :: fw.2)
        else
          match loadDirFiles fullPath stop rest with
          | Except.error err => Except.error err
          | Except.ok fw => Except.ok (⟨p, e.blocksResult⟩ :: fw.1, fw.2)

/-- The function `loadDirectory`: a directory that cannot be listed is a
fatal error; otherwise the entries are processed by `loadDirFiles`. -/
def loadDirectory (fs : FS) (fullPath : String) (stop : Bool) :
    Except String (List HclFile × List String) :=
  match fs.readDir fullPath with
  | none => Except.error (readDirErr fullPath)
  | some entries => loadDirFiles fullPath stop entries

/-- The function `Parser.parseDirectoryFiles`: extract each file's blocks,
wrapping each through the block builder; a per-file extraction failure is
fatal in strict mode and otherwise skipped with a warning. -/
def Parser.parseDirectoryFiles (p : Parser) : List HclFile → Except String (Blocks × List String)
  | [] => Except.ok ([], [])
  | f :: rest =>
      match f.blocksResult with
      | Except.error e =>
          if p.stopOnHCLError then Except.error e
          else
            match Parser.parseDirectoryFiles p rest with
            | Except.error err => Except.error err
            | Except.ok bw =>
                Except.ok (bw.1, ("skipping file could not load blocks err: " ++ e) :: bw.2)
      | Except.ok rbs =>
          match Parser.parseDirectoryFiles p rest with
          | Except.error err => Except.error err
          | Except.ok bw => Except.ok (rbs.map newBlock ++ bw.1, bw.2)

/-- Modelled from the spec: the evaluated root Module produced by the
external Evaluator. -/
structure Module where
  name : String
  source : String
  blocks : Blocks
  rootPath : String
  modulePath : String
deriving DecidableEq, Repr

/-- Oracles for the external collaborators one `ParseDirectory` run calls
into: the file system, the module loader's outcome, `os.Getwd`, the
evaluator's missing-variable report and its run outcome. -/
structure World where
  fs : FS
  moduleLoad : Except String String
  getwd : Except String String
  evalMissingVars : List String
  evalRun : Except String Module

/-- The consolidated warning emitted when the evaluator reports variables
that were referenced but never resolved. -/
def missingVarsWarning (vs : List String) : String :=
  "Input values were not provided for following Terraform variables: "
    ++ String.intercalate ", " vs
    ++ ". Use --terraform-var-file or --terraform-var to specify them."

/-- The fatal error when the directory yields no blocks at all. -/
def noValidFilesErr : String :=
  "No valid terraform files found given path, try a different directory"

/-- Result of one `ParseDirectory` call: the (possibly mutated) parser, the
returned module or error, and the warnings recorded along the way. -/
structure ParseOutcome where
  parser : Parser
  result : Except String Module
  warnings : List String

/-- The orchestrator `Parser.ParseDirectory`: load the directory, extract
blocks (fatal when none), resolve variables, load modules, look up the
working directory, emit the missing-variables warning when a sink is
present, and run the evaluator. -/
def Parser.ParseDirectory (p : Parser) (w : World) : ParseOutcome :=
  match loadDirectory w.fs p.initialPath p.stopOnHCLError with
  | Except.error e => ⟨p, Except.error e, []⟩
  | Except.ok fw =>
      match p.parseDirectoryFiles fw.1 with
      | Except.error e => ⟨p, Except.error e, fw.2⟩
      | Except.ok bw =>
          if bw.1.isEmpty then ⟨p, Except.error noValidFilesErr, fw.2 ++ bw.2⟩
          else
            match p.loadVars w.fs bw.1 p.tfvarsPaths with
            | (p', _, some e) => ⟨p', Except.error e, fw.2 ++ bw.2⟩
            | (p', _, none) =>
                match w.moduleLoad with
                | Except.error e =>
                    ⟨p', Except.error ("Error loading Terraform modules: " ++ e), fw.2 ++ bw.2⟩
                | Except.ok _ =>
                    match w.getwd with
                    | Except.error e =>
                        ⟨p', Except.error
                          ("Error could not evaluate current working directory " ++ e),
                          fw.2 ++ bw.2⟩
                    | Except.ok _ =>
                        let ws3 :=
                          if w.evalMissingVars.isEmpty ∨ ¬p.hasWarnFn then []
                          else [missingVarsWarning w.evalMissingVars]
                        match w.evalRun with
                        | Except.error e => ⟨p', Except.error e, fw.2 ++ bw.2 ++ ws3⟩
                        | Except.ok root => ⟨p', Except.ok root, fw.2 ++ bw.2 ++ ws3⟩

/-- The remote-loader failure carried by the parser, when any. -/
def remoteErr (p : Parser) : Option String :=
  match p.remoteVariablesLoader with
  | some (Except.error e) => some e
  | _ => none

/-- The remote-loader variable entries carried by the parser (empty when no
loader is configured or it fails). -/
def remoteEntries (p : Parser) : VarMap :=
  match p.remoteVariablesLoader with
  | some (Except.ok m) => m
  | _ => []

/-- Contribution of a list of variable files merged with skip-on-failure
semantics (the default/auto files stage): the value for `k` from the
latest file that loads and binds `k`. -/
def dContrib (fs : FS) : List String → String → Option CtyValue
  | [], _ => none
  | n :: rest, k =>
      match loadVarFile fs n with
      | Except.error _ => dContrib fs rest k
      | Except.ok m => orOpt (dContrib fs rest k) (m.find k)

/-- Contribution of the explicit variable files stage, which stops at the
first file that fails to load. -/
def eContrib (fs : FS) : List String → String → Option CtyValue
  | [], _ => none
  | n :: rest, k =>
      match loadVarFile fs n with
      | Except.error _ => none
      | Except.ok m => orOpt (eContrib fs rest k) (m.find k)

/-- The error produced by the explicit variable files stage, when any. -/
def eErr (fs : FS) : List String → Option String
  | [] => none
  | n :: rest =>
      match loadVarFile fs n with
      | Except.error e => some ("failed to load the tfvars. " ++ e)
      | Except.ok _ => eErr fs rest

/-- OS-environment bindings recognized by `OptionWithTFEnvVars`, in entry
order. -/
def osEnvEntries (environ : List String) : VarMap :=
  environ.filterMap (fun v => (parseEnvEntry v).map (fun ab => (ab.1, CtyValue.str ab.2)))

/-- Project-scoped bindings recognized by `OptionWithTFEnvVars`, in entry
order. -/
def projectEnvEntries (projectEnv : List (String × String)) : VarMap :=
  projectEnv.filterMap (fun kv => (stripTfVar kv.1).map (fun n => (n, CtyValue.str kv.2)))

/-- Two lists denote the same Go map: same binding set (a permutation) with
duplicate-free keys. -/
def VarMapEquiv (m1 m2 : VarMap) : Prop := m1.Perm m2 ∧ NodupKeys m1

/-- Two optional Go maps are the same: both nil, or both non-nil and equal
as maps. -/
def OptVarMapEquiv : Option VarMap → Option VarMap → Prop
  | none, none => True
  | some m1, some m2 => VarMapEquiv m1 m2
  | _, _ => False

/-- Two remote-loader configurations produce the same result: both absent,
both failing with the same error, or both succeeding with the same map. -/
def OptRemoteEquiv : Option (Except String VarMap) → Option (Except String VarMap) → Prop
  | none, none => True
  | some (Except.error e1), some (Except.error e2) => e1 = e2
  | some (Except.ok m1), some (Except.ok m2) => VarMapEquiv m1 m2
  | _, _ => False

/-- Concrete scenario of the precedence claim: a directory `d` holding
`terraform.tfvars` with `region = "us-east-1"` and `a.auto.tfvars` with
`region = "us-west-2"`. -/
def scenFS : FS :=
  { statOk := fun s => s == "d/terraform.tfvars"
    readDir := fun s =>
      if s == "d" then
        some [⟨"a.auto.tfvars", false, false, false, Except.ok []⟩,
              ⟨"terraform.tfvars", false, false, false, Except.ok []⟩]
      else none
    readFile := fun s =>
      if s == "d/terraform.tfvars" then
        some ⟨false, [⟨"region", CtyValue.str "us-east-1", false⟩]⟩
      else if s == "d/a.auto.tfvars" then
        some ⟨false, [⟨"region", CtyValue.str "us-west-2", false⟩]⟩
      else none
    environ := [] }

/-- The scenario parser with the direct input `region=eu-west-1`. -/
def scenParserDirect : Parser :=
  (New scenFS "d" [POption.withPlanFlagVars ["region=eu-west-1"]]).1

/-- The scenario parser without direct input. -/
def scenParserNoDirect : Parser := (New scenFS "d" []).1

/-- Concrete input for the explicit-variable-file claim: `d/vars.tfvars`
exists and is readable, but its content is malformed (the HCL parser
reports diagnostics and recovers a single attribute whose expression does
not evaluate). -/
def malFS : FS :=
  { statOk := fun s => s == "d/vars.tfvars"
    readDir := fun _ => none
    readFile := fun s =>
      if s == "d/vars.tfvars" then some ⟨true, [⟨"x", CtyValue.nilVal, true⟩]⟩
      else none
    environ := [] }

/-- Parser built over `malFS` with `vars.tfvars` requested as an explicit
variable file. -/
def malParser : Parser := (New malFS "d" [POption.withTFVarsPaths ["vars.tfvars"]]).1

/-- Concrete input for the lenient-variable-file claim: a readable file
whose first attribute evaluates and whose second is malformed (evaluation
diagnostics, value not set). -/
def lenFS : FS :=
  { statOk := fun _ => false
    readDir := fun _ => none
    readFile := fun s =>
      if s == "f.tfvars" then
        some ⟨false, [⟨"good", CtyValue.str "v", false⟩, ⟨"bad", CtyValue.nilVal, true⟩]⟩
      else none
    environ := [] }

/-- A file system with nothing in it. -/
def emptyFS : FS :=
  { statOk := fun _ => false
    readDir := fun _ => none
    readFile := fun _ => none
    environ := [] }

/-- Parser whose configured remote loader fails. -/
def remFailParser : Parser :=
  { initialPath := "d"
    tfEnvVars := some [("region", CtyValue.str "env")]
    defaultVarFiles := []
    tfvarsPaths := []
    inputVars := none
    stopOnHCLError := false
    workspaceName := "default"
    remoteVariablesLoader := some (Except.error "tfc down")
    hasWarnFn := false }

/-- File system exercising all six variable sources at once for the key
`region`: an OS environment value, a default file value and an explicit
file value. -/
def sixFS : FS :=
  { statOk := fun _ => false
    readDir := fun _ => none
    readFile := fun s =>
      if s == "dd/defaults.tfvars" then
        some ⟨false, [⟨"region", CtyValue.str "dfl", false⟩]⟩
      else if s == "dd/explicit.tfvars" then
        some ⟨false, [⟨"region", CtyValue.str "exp", false⟩]⟩
      else none
    environ := ["TF_VAR_region=os"] }

/-- Parser over `sixFS` supplying the remaining sources: project-scoped
environment, a successful remote loader, and a direct input. -/
def sixParser : Parser :=
  { initialPath := "dd"
    tfEnvVars := some (tfEnvVarsOf sixFS.environ [("TF_VAR_region", "proj")])
    defaultVarFiles := ["dd/defaults.tfvars"]
    tfvarsPaths := ["dd/explicit.tfvars"]
    inputVars := some [("region", CtyValue.str "direct")]
    stopOnHCLError := false
    workspaceName := "default"
    remoteVariablesLoader := some (Except.ok [("region", CtyValue.str "remote")])
    hasWarnFn := false }

/-- Parser with a non-nil environment map and one direct input, used to
exhibit the aliasing of the environment map. -/
def aliasParser : Parser :=
  { initialPath := "d"
    tfEnvVars := some [("region", CtyValue.str "env")]
    defaultVarFiles := []
    tfvarsPaths := []
    inputVars := some [("other", CtyValue.str "in")]
    stopOnHCLError := false
    workspaceName := "default"
    remoteVariablesLoader := none
    hasWarnFn := false }

/-- First of two parsers over identical sources whose Go maps are listed in
different iteration orders. -/
def detParser1 : Parser :=
  { initialPath := "d"
    tfEnvVars := some [("a", CtyValue.str "1"), ("b", CtyValue.str "2")]
    defaultVarFiles := []
    tfvarsPaths := []
    inputVars := some [("x", CtyValue.str "7"), ("y", CtyValue.str "8")]
    stopOnHCLError := false
    workspaceName := "default"
    remoteVariablesLoader := some (Except.ok [("r", CtyValue.str "9")])
    hasWarnFn := false }

/-- Second parser: same sources as `detParser1`, maps listed in the
reverse iteration order. -/
def detParser2 : Parser :=
  { initialPath := "d"
    tfEnvVars := some [("b", CtyValue.str "2"), ("a", CtyValue.str "1")]
    defaultVarFiles := []
    tfvarsPaths := []
    inputVars := some [("y", CtyValue.str "8"), ("x", CtyValue.str "7")]
    stopOnHCLError := false
    workspaceName := "default"
    remoteVariablesLoader := some (Except.ok [("r", CtyValue.str "9")])
    hasWarnFn := false }

/-- Directory with two readable but unparseable recognized files. -/
def c5FS : FS :=
  { statOk := fun _ => false
    readDir := fun s =>
      if s == "d" then
        some [⟨"a.tf", false, false, true, Except.error "bad blocks a"⟩,
              ⟨"b.tf", false, false, true, Except.error "bad blocks b"⟩]
      else none
    readFile := fun _ => none
    environ := [] }

/-- World for the unparseable directory; later stages would succeed. -/
def c5World : World :=
  { fs := c5FS
    moduleLoad := Except.ok "manifest"
    getwd := Except.ok "/wd"
    evalMissingVars := []
    evalRun := Except.error "never reached" }

/-- The single raw block of the valid file in the mixed directory. -/
def c6Block : RawBlock := ⟨"d/good.tf", 0⟩

/-- Directory with one unparseable file and one valid file. -/
def c6FS : FS :=
  { statOk := fun _ => false
    readDir := fun s =>
      if s == "d" then
        some [⟨"bad.tf", false, false, true, Except.error "boom"⟩,
              ⟨"good.tf", false, false, false, Except.ok [c6Block]⟩]
      else none
    readFile := fun _ => none
    environ := [] }

/-- The module the external evaluator returns in the mixed scenario. -/
def c6Root : Module := ⟨"", "", [⟨c6Block, true⟩], "d", "d"⟩

/-- World for the mixed directory: module loading, `Getwd` and evaluation
all succeed. -/
def c6World : World :=
  { fs := c6FS
    moduleLoad := Except.ok "manifest"
    getwd := Except.ok "/wd"
    evalMissingVars := []
    evalRun := Except.ok c6Root }

/-- World over the empty file system: the directory cannot be listed. -/
def c10World : World :=
  { fs := emptyFS
    moduleLoad := Except.ok "manifest"
    getwd := Except.ok "/wd"
    evalMissingVars := []
    evalRun := Except.error "never reached" }

theorem orOpt_none_right (a : Option CtyValue) : orOpt a none = a := by
  cases a <;> rfl

theorem orOpt_some (v : CtyValue) (b : Option CtyValue) : orOpt (some v) b = some v := rfl

theorem orOpt_assoc (a b c : Option CtyValue) :
    orOpt (orOpt a b) c = orOpt a (orOpt b c) := by
  cases a <;> rfl

theorem find_eraseKey_ne (a k : String) (h : ¬a = k) :
    ∀ m : VarMap, (m.eraseKey a).find k = m.find k := by
  intro m
  induction m with
  | nil => rfl
  | cons kv rest ih =>
      by_cases hk : kv.1 = a
      · have hke : ¬kv.1 = k := by rw [hk]; exact h
        rw [VarMap.eraseKey, if_pos hk, ih, VarMap.find, if_neg hke]
      · rw [VarMap.eraseKey, if_neg hk, VarMap.find, VarMap.find, ih]

theorem eraseKey_sublist (a : String) : ∀ m : VarMap, (m.eraseKey a).Sublist m := by
  intro m
  induction m with
  | nil => exact List.Sublist.refl []
  | cons kv rest ih =>
      by_cases hk : kv.1 = a
      · rw [VarMap.eraseKey, if_pos hk]
        exact ih.cons kv
      · rw [VarMap.eraseKey, if_neg hk]
        exact ih.cons₂ kv

theorem key_notin_eraseKey (a : String) : ∀ m : VarMap, a ∉ (m.eraseKey a).map Prod.fst := by
  intro m
  induction m with
  | nil => simp [VarMap.eraseKey]
  | cons kv rest ih =>
      by_cases hk : kv.1 = a
      · rw [VarMap.eraseKey, if_pos hk]
        exact ih
      · rw [VarMap.eraseKey, if_neg hk]
        simp only [List.map_cons, List.mem_cons]
        intro hc
        rcases hc with hc | hc
        · exact hk hc.symm
        · exact ih hc

theorem find_insert (m : VarMap) (a k : String) (b : CtyValue) :
    (m.insert a b).find k = if a = k then some b else m.find k := by
  by_cases h : a = k
  · simp [VarMap.insert, VarMap.find, h]
  · rw [VarMap.insert, VarMap.find, if_neg h, if_neg h]
    exact find_eraseKey_ne a k h m

theorem nodupKeys_nil : NodupKeys [] := by simp [NodupKeys]

theorem nodupKeys_insert (m : VarMap) (a : String) (b : CtyValue) (h : NodupKeys m) :
    NodupKeys (m.insert a b) := by
  unfold NodupKeys VarMap.insert
  simp only [List.map_cons]
  refine List.Nodup.cons ?_ ?_
  · exact key_notin_eraseKey a m
  · exact List.Nodup.sublist (List.Sublist.map Prod.fst (eraseKey_sublist a m)) h

theorem nodupKeys_foldl {α : Type} (f : VarMap → α → VarMap)
    (hf : ∀ m x, NodupKeys m → NodupKeys (f m x)) :
    ∀ (l : List α) (m : VarMap), NodupKeys m → NodupKeys (l.foldl f m) := by
  intro l
  induction l with
  | nil => intro m hm; exact hm
  | cons x l ih => intro m hm; exact ih (f m x) (hf m x hm)

theorem lookupLast_none_iff : ∀ (es : VarMap) (k : String),
    lookupLast es k = none ↔ k ∉ es.map Prod.fst := by
  intro es k
  induction es with
  | nil => simp [lookupLast]
  | cons kv rest ih =>
      cases h : lookupLast rest k with
      | some v =>
          have hk : k ∈ rest.map Prod.fst := by
            by_contra hc
            rw [← ih] at hc
            rw [h] at hc
            exact Option.some_ne_none v hc
          simp [lookupLast, h, List.map_cons, hk]
      | none =>
          have hk : k ∉ rest.map Prod.fst := ih.mp h
          by_cases hkv : kv.1 = k
          · simp [lookupLast, h, hkv, List.map_cons]
          · simp [lookupLast, h, hkv, List.map_cons, hk]
            exact fun hh => hkv hh.symm

theorem lookupLast_some_mem : ∀ (es : VarMap) (k : String) (v : CtyValue),
    lookupLast es k = some v → (k, v) ∈ es := by
  intro es
  induction es with
  | nil => intro k v h; simp [lookupLast] at h
  | cons kv rest ih =>
      intro k v h
      cases hh : lookupLast rest k with
      | some w =>
          rw [lookupLast, hh] at h
          injection h with hvw
          exact List.mem_cons_of_mem kv (hvw ▸ ih k w hh)
      | none =>
          rw [lookupLast, hh] at h
          by_cases hkv : kv.1 = k
          · rw [if_pos hkv] at h
            injection h with hv
            have : (k, v) = kv := by
              cases kv with
              | mk k1 v1 => simp at hkv hv; rw [hkv, hv]
            rw [this]
            exact List.mem_cons_self kv rest
          · rw [if_neg hkv] at h
            exact absurd h (Option.noConfusion)

theorem mem_lookupLast : ∀ (es : VarMap), NodupKeys es →
    ∀ (k : String) (v : CtyValue), (k, v) ∈ es → lookupLast es k = some v := by
  intro es
  induction es with
  | nil => intro _ k v h; simp at h
  | cons kv rest ih =>
      intro hnd k v hmem
      have hnd' : NodupKeys rest := by
        unfold NodupKeys at hnd ⊢
        simp only [List.map_cons] at hnd
        exact hnd.of_cons
      rcases List.mem_cons.mp hmem with heq | htail
      · have hk1 : kv.1 = k := by rw [← heq]
        have hnotin : k ∉ rest.map Prod.fst := by
          unfold NodupKeys at hnd
          simp only [List.map_cons, List.nodup_cons] at hnd
          rw [← hk1]
          exact hnd.1
        have hnone : lookupLast rest k = none := (lookupLast_none_iff rest k).mpr hnotin
        rw [lookupLast, hnone, if_pos hk1]
        rw [← heq]
      · have := ih hnd' k v htail
        rw [lookupLast, this]

theorem lookupLast_perm (es1 es2 : VarMap) (hp : es1.Perm es2) (hnd : NodupKeys es1) :
    ∀ k, lookupLast es1 k = lookupLast es2 k := by
  have hnd2 : NodupKeys es2 := ((hp.map Prod.fst).nodup_iff).mp hnd
  intro k
  cases h : lookupLast es1 k with
  | some v =>
      exact (mem_lookupLast es2 hnd2 k v (hp.mem_iff.mp (lookupLast_some_mem es1 k v h))).symm
  | none =>
      have : k ∉ es2.map Prod.fst := by
        intro hc
        exact ((lookupLast_none_iff es1 k).mp h) (((hp.map Prod.fst).mem_iff).mpr hc)
      exact ((lookupLast_none_iff es2 k).mpr this).symm

theorem find_some_mem : ∀ (es : VarMap) (k : String) (v : CtyValue),
    es.find k = some v → (k, v) ∈ es := by
  intro es
  induction es with
  | nil => intro k v h; simp [VarMap.find] at h
  | cons kv rest ih =>
      intro k v h
      rw [VarMap.find] at h
      by_cases hkv : kv.1 = k
      · rw [if_pos hkv] at h
        injection h with hv
        have : (k, v) = kv := by
          cases kv with
          | mk k1 v1 => simp at hkv hv; rw [hkv, hv]
        rw [this]
        exact List.mem_cons_self kv rest
      · rw [if_neg hkv] at h
        exact List.mem_cons_of_mem kv (ih k v h)

theorem find_none_iff : ∀ (es : VarMap) (k : String),
    es.find k = none ↔ k ∉ es.map Prod.fst := by
  intro es k
  induction es with
  | nil => simp [VarMap.find]
  | cons kv rest ih =>
      rw [VarMap.find]
      by_cases hkv : kv.1 = k
      · simp [hkv, List.map_cons]
      · simp only [if_neg hkv, List.map_cons, List.mem_cons, ih]
        constructor
        · intro h hc
          rcases hc with hc | hc
          · exact hkv hc.symm
          · exact h hc
        · intro h hc
          exact h (Or.inr hc)

theorem mem_find : ∀ (es : VarMap), NodupKeys es →
    ∀ (k : String) (v : CtyValue), (k, v) ∈ es → es.find k = some v := by
  intro es
  induction es with
  | nil => intro _ k v h; simp at h
  | cons kv rest ih =>
      intro hnd k v hmem
      have hnd' : NodupKeys rest := by
        unfold NodupKeys at hnd ⊢
        simp only [List.map_cons] at hnd
        exact hnd.of_cons
      rcases List.mem_cons.mp hmem with heq | htail
      · have hk1 : kv.1 = k := by rw [← heq]
        rw [VarMap.find, if_pos hk1, ← heq]
      · have hne : ¬kv.1 = k := by
          intro hc
          unfold NodupKeys at hnd
          simp only [List.map_cons, List.nodup_cons] at hnd
          exact hnd.1 (hc ▸ List.mem_map_of_mem Prod.fst htail)
        rw [VarMap.find, if_neg hne]
        exact ih hnd' k v htail

theorem find_perm (es1 es2 : VarMap) (hp : es1.Perm es2) (hnd : NodupKeys es1) :
    ∀ k, es1.find k = es2.find k := by
  have hnd2 : NodupKeys es2 := ((hp.map Prod.fst).nodup_iff).mp hnd
  intro k
  cases h : es1.find k with
  | some v =>
      exact (mem_find es2 hnd2 k v (hp.mem_iff.mp (find_some_mem es1 k v h))).symm
  | none =>
      have : k ∉ es2.map Prod.fst := by
        intro hc
        exact ((find_none_iff es1 k).mp h) (((hp.map Prod.fst).mem_iff).mpr hc)
      exact ((find_none_iff es2 k).mpr this).symm

theorem lookupLast_eq_find (es : VarMap) (hnd : NodupKeys es) :
    ∀ k, lookupLast es k = es.find k := by
  intro k
  cases h : es.find k with
  | some v => exact mem_lookupLast es hnd k v (find_some_mem es k v h)
  | none => exact (lookupLast_none_iff es k).mpr ((find_none_iff es k).mp h)

theorem find_mergeInto : ∀ (es c : VarMap) (k : String),
    (mergeInto c es).find k = orOpt (lookupLast es k) (c.find k) := by
  intro es
  induction es with
  | nil => intro c k; rfl
  | cons kv es ih =>
      intro c k
      have hstep : mergeInto c (kv :: es) = mergeInto (c.insert kv.1 kv.2) es := rfl
      rw [hstep, ih, find_insert]
      cases h : lookupLast es k with
      | some v => simp [lookupLast, h, orOpt]
      | none =>
          by_cases hk : kv.1 = k
          · simp [lookupLast, h, hk, orOpt]
          · simp [lookupLast, h, hk, orOpt]

theorem loadVarFile_nodup (fs : FS) (n : String) (m : VarMap)
    (h : loadVarFile fs n = Except.ok m) : NodupKeys m := by
  unfold loadVarFile at h
  by_cases hn : n = ""
  · rw [if_pos hn] at h
    injection h with hm
    rw [← hm]
    exact nodupKeys_nil
  · rw [if_neg hn] at h
    cases hr : fs.readFile n with
    | none => rw [hr] at h; exact absurd h (by intro hh; injection hh)
    | some src =>
        rw [hr] at h
        injection h with hm
        rw [← hm]
        exact nodupKeys_foldl (fun m a => m.insert a.name a.value)
          (fun m a hm => nodupKeys_insert m a.name a.value hm) src.attrs [] nodupKeys_nil

theorem mergeDefault_find (fs : FS) : ∀ (names : List String) (c : VarMap) (k : String),
    (mergeDefaultFiles fs c names).find k = orOpt (dContrib fs names k) (c.find k) := by
  intro names
  induction names with
  | nil => intro c k; rfl
  | cons n rest ih =>
      intro c k
      cases h : loadVarFile fs n with
      | error e => rw [mergeDefaultFiles, h, dContrib, h, ih]
      | ok m =>
          rw [mergeDefaultFiles, h, dContrib, h, ih, find_mergeInto,
            lookupLast_eq_find m (loadVarFile_nodup fs n m h) k, orOpt_assoc]

theorem mergeExplicit_err (fs : FS) : ∀ (names : List String) (c : VarMap),
    (mergeExplicitFiles fs c names).2 = eErr fs names := by
  intro names
  induction names with
  | nil => intro c; rfl
  | cons n rest ih =>
      intro c
      cases h : loadVarFile fs n with
      | error e => rw [mergeExplicitFiles, h, eErr, h]
      | ok m => rw [mergeExplicitFiles, h, eErr, h, ih]

theorem mergeExplicit_find (fs : FS) : ∀ (names : List String) (c : VarMap) (k : String),
    (mergeExplicitFiles fs c names).1.find k = orOpt (eContrib fs names k) (c.find k) := by
  intro names
  induction names with
  | nil => intro c k; rfl
  | cons n rest ih =>
      intro c k
      cases h : loadVarFile fs n with
      | error e => rw [mergeExplicitFiles, h, eContrib, h]; rfl
      | ok m =>
          rw [mergeExplicitFiles, h, eContrib, h, ih, find_mergeInto,
            lookupLast_eq_find m (loadVarFile_nodup fs n m h) k, orOpt_assoc]

theorem eErr_none_of_ok (fs : FS) : ∀ (fns : List String),
    (∀ f ∈ fns, eIsOk (loadVarFile fs f) = true) → eErr fs fns = none := by
  intro fns
  induction fns with
  | nil => intro _; rfl
  | cons n rest ih =>
      intro hall
      cases h : loadVarFile fs n with
      | error e =>
          have := hall n (List.mem_cons_self n rest)
          rw [h] at this
          exact absurd this (by simp [eIsOk])
      | ok m =>
          rw [eErr, h]
          exact ih (fun f hf => hall f (List.mem_cons_of_mem n hf))

theorem eErr_some_of_bad (fs : FS) : ∀ (fns : List String) (f : String), f ∈ fns →
    eIsOk (loadVarFile fs f) = false → eErr fs fns ≠ none := by
  intro fns
  induction fns with
  | nil => intro f hf; simp at hf
  | cons n rest ih =>
      intro f hf hbad
      cases h : loadVarFile fs n with
      | error e => rw [eErr, h]; exact fun hc => Option.noConfusion hc
      | ok m =>
          rw [eErr, h]
          rcases List.mem_cons.mp hf with heq | htail
          · rw [heq, h] at hbad
            exact absurd hbad (by simp [eIsOk])
          · exact ih f htail hbad

theorem eContrib_eq_dContrib (fs : FS) : ∀ (fns : List String),
    (∀ f ∈ fns, eIsOk (loadVarFile fs f) = true) →
    ∀ k, eContrib fs fns k = dContrib fs fns k := by
  intro fns
  induction fns with
  | nil => intro _ k; rfl
  | cons n rest ih =>
      intro hall k
      cases h : loadVarFile fs n with
      | error e =>
          have := hall n (List.mem_cons_self n rest)
          rw [h] at this
          exact absurd this (by simp [eIsOk])
      | ok m =>
          rw [eContrib, h, dContrib, h, ih (fun f hf => hall f (List.mem_cons_of_mem n hf)) k]

theorem storeEnv_some (p : Parser) (m m' : VarMap) (h : p.tfEnvVars = some m) :
    (p.storeEnv m').tfEnvVars = some m' := by
  unfold Parser.storeEnv
  rw [h]

theorem storeEnv_none (p : Parser) (m' : VarMap) (h : p.tfEnvVars = none) :
    (p.storeEnv m').tfEnvVars = none := by
  unfold Parser.storeEnv
  rw [h]
  exact h

theorem loadVarsRest_err (p : Parser) (fs : FS) (c : VarMap) (fns : List String) :
    (p.loadVarsRest fs c fns).2.2 = eErr fs fns := by
  unfold Parser.loadVarsRest
  cases h : mergeExplicitFiles fs (mergeDefaultFiles fs c p.defaultVarFiles) fns with
  | mk c2 eo =>
      have heo : eo = eErr fs fns := by
        rw [← mergeExplicit_err fs fns (mergeDefaultFiles fs c p.defaultVarFiles), h]
      cases eo with
      | none => rw [← heo]
      | some e => rw [← heo]

theorem loadVarsRest_find (p : Parser) (fs : FS) (c : VarMap) (fns : List String)
    (k : String) :
    (p.loadVarsRest fs c fns).2.1.find k =
      match eErr fs fns with
      | none =>
          orOpt (lookupLast (p.inputVars.getD []) k)
            (orOpt (eContrib fs fns k) (orOpt (dContrib fs p.defaultVarFiles k) (c.find k)))
      | some _ =>
          orOpt (eContrib fs fns k) (orOpt (dContrib fs p.defaultVarFiles k) (c.find k)) := by
  unfold Parser.loadVarsRest
  cases h : mergeExplicitFiles fs (mergeDefaultFiles fs c p.defaultVarFiles) fns with
  | mk c2 eo =>
      have heo : eo = eErr fs fns := by
        rw [← mergeExplicit_err fs fns (mergeDefaultFiles fs c p.defaultVarFiles), h]
      have hc2 : c2.find k =
          orOpt (eContrib fs fns k) (orOpt (dContrib fs p.defaultVarFiles k) (c.find k)) := by
        have hm := mergeExplicit_find fs fns (mergeDefaultFiles fs c p.defaultVarFiles) k
        rw [h, mergeDefault_find] at hm
        exact hm
      cases eo with
      | none =>
          rw [← heo]
          show (mergeInto c2 (p.inputVars.getD [])).find k = _
          rw [find_mergeInto, hc2]
      | some e =>
          rw [← heo]
          exact hc2

theorem loadVarsRest_alias (p : Parser) (fs : FS) (c : VarMap) (fns : List String) :
    (p.loadVarsRest fs c fns).1 = p.storeEnv (p.loadVarsRest fs c fns).2.1 := by
  unfold Parser.loadVarsRest
  cases h : mergeExplicitFiles fs (mergeDefaultFiles fs c p.defaultVarFiles) fns with
  | mk c2 eo =>
      cases eo with
      | none => rfl
      | some e => rfl

theorem loadVars_err_char (p : Parser) (fs : FS) (blocks : Blocks) (fns : List String)
    (h : remoteErr p = none) :
    (p.loadVars fs blocks fns).2.2 = eErr fs fns := by
  unfold Parser.loadVars
  cases hrl : p.remoteVariablesLoader with
  | none => exact loadVarsRest_err p fs (p.tfEnvVars.getD []) fns
  | some r =>
      cases r with
      | error e => unfold remoteErr at h; rw [hrl] at h; exact absurd h (by simp)
      | ok m => exact loadVarsRest_err p fs (mergeInto (p.tfEnvVars.getD []) m) fns

theorem loadVars_map_char (p : Parser) (fs : FS) (blocks : Blocks) (fns : List String)
    (h : remoteErr p = none) (k : String) :
    (p.loadVars fs blocks fns).2.1.find k =
      match eErr fs fns with
      | none =>
          orOpt (lookupLast (p.inputVars.getD []) k)
            (orOpt (eContrib fs fns k)
              (orOpt (dContrib fs p.defaultVarFiles k)
                (orOpt (lookupLast (remoteEntries p) k) ((p.tfEnvVars.getD []).find k))))
      | some _ =>
          orOpt (eContrib fs fns k)
            (orOpt (dContrib fs p.defaultVarFiles k)
              (orOpt (lookupLast (remoteEntries p) k) ((p.tfEnvVars.getD []).find k))) := by
  unfold Parser.loadVars
  cases hrl : p.remoteVariablesLoader with
  | none =>
      have hre : remoteEntries p = [] := by unfold remoteEntries; rw [hrl]
      have := loadVarsRest_find p fs (p.tfEnvVars.getD []) fns k
      rw [hre]
      show (p.loadVarsRest fs (p.tfEnvVars.getD []) fns).2.1.find k = _
      rw [this]
      cases eErr fs fns <;> simp [lookupLast, orOpt]
  | some r =>
      cases r with
      | error e => unfold remoteErr at h; rw [hrl] at h; exact absurd h (by simp)
      | ok m =>
          have hre : remoteEntries p = m := by unfold remoteEntries; rw [hrl]
          have := loadVarsRest_find p fs (mergeInto (p.tfEnvVars.getD []) m) fns k
          rw [hre]
          show (p.loadVarsRest fs (mergeInto (p.tfEnvVars.getD []) m) fns).2.1.find k = _
          rw [this, find_mergeInto]

theorem loadVars_parser_char (p : Parser) (fs : FS) (blocks : Blocks) (fns : List String) :
    (p.loadVars fs blocks fns).1 = p.storeEnv (p.loadVars fs blocks fns).2.1 := by
  unfold Parser.loadVars
  cases hrl : p.remoteVariablesLoader with
  | none => exact loadVarsRest_alias p fs (p.tfEnvVars.getD []) fns
  | some r =>
      cases r with
      | error e => rfl
      | ok m => exact loadVarsRest_alias p fs (mergeInto (p.tfEnvVars.getD []) m) fns

theorem find_env_fold_os : ∀ (environ : List String) (m0 : VarMap) (k : String),
    VarMap.find
      (environ.foldl
        (fun m v =>
          match parseEnvEntry v with
          | some ab => m.insert ab.1 (CtyValue.str ab.2)
          | none => m) m0) k
    = orOpt (lookupLast (osEnvEntries environ) k) (m0.find k) := by
  intro environ
  induction environ with
  | nil => intro m0 k; rfl
  | cons v rest ih =>
      intro m0 k
      cases h : parseEnvEntry v with
      | none =>
          have hos : osEnvEntries (v :: rest) = osEnvEntries rest := by
            simp [osEnvEntries, List.filterMap_cons, h]
          have hstep :
              (match parseEnvEntry v with
               | some ab => m0.insert ab.1 (CtyValue.str ab.2)
               | none => m0) = m0 := by rw [h]
          rw [List.foldl_cons, hstep, ih, hos]
      | some ab =>
          have hos : osEnvEntries (v :: rest) =
              (ab.1, CtyValue.str ab.2) :: osEnvEntries rest := by
            simp [osEnvEntries, List.filterMap_cons, h]
          have hstep :
              (match parseEnvEntry v with
               | some ab => m0.insert ab.1 (CtyValue.str ab.2)
               | none => m0) = m0.insert ab.1 (CtyValue.str ab.2) := by rw [h]
          rw [List.foldl_cons, hstep, ih, find_insert, hos]
          cases hL : lookupLast (osEnvEntries rest) k with
          | some w => simp [lookupLast, hL, orOpt]
          | none =>
              by_cases hk : ab.1 = k
              · simp [lookupLast, hL, hk, orOpt]
              · simp [lookupLast, hL, hk, orOpt]

theorem find_env_fold_proj : ∀ (pe : List (String × String)) (m0 : VarMap) (k : String),
    VarMap.find
      (pe.foldl
        (fun m kv =>
          match stripTfVar kv.1 with
          | some n => m.insert n (CtyValue.str kv.2)
          | none => m) m0) k
    = orOpt (lookupLast (projectEnvEntries pe) k) (m0.find k) := by
  intro pe
  induction pe with
  | nil => intro m0 k; rfl
  | cons kv rest ih =>
      intro m0 k
      cases h : stripTfVar kv.1 with
      | none =>
          have hos : projectEnvEntries (kv :: rest) = projectEnvEntries rest := by
            simp [projectEnvEntries, List.filterMap_cons, h]
          have hstep :
              (match stripTfVar kv.1 with
               | some n => m0.insert n (CtyValue.str kv.2)
               | none => m0) = m0 := by rw [h]
          rw [List.foldl_cons, hstep, ih, hos]
      | some n =>
          have hos : projectEnvEntries (kv :: rest) =
              (n, CtyValue.str kv.2) :: projectEnvEntries rest := by
            simp [projectEnvEntries, List.filterMap_cons, h]
          have hstep :
              (match stripTfVar kv.1 with
               | some n => m0.insert n (CtyValue.str kv.2)
               | none => m0) = m0.insert n (CtyValue.str kv.2) := by rw [h]
          rw [List.foldl_cons, hstep, ih, find_insert, hos]
          cases hL : lookupLast (projectEnvEntries rest) k with
          | some w => simp [lookupLast, hL, orOpt]
          | none =>
              by_cases hk : n = k
              · simp [lookupLast, hL, hk, orOpt]
              · simp [lookupLast, hL, hk, orOpt]

theorem tfEnvVarsOf_find (environ : List String) (pe : List (String × String)) (k : String) :
    (tfEnvVarsOf environ pe).find k =
      orOpt (lookupLast (projectEnvEntries pe) k) (lookupLast (osEnvEntries environ) k) := by
  unfold tfEnvVarsOf
  rw [find_env_fold_proj, find_env_fold_os]
  have : VarMap.find [] k = none := rfl
  rw [this, orOpt_none_right]

/-- C3: when a configured remote variables loader fails, `loadVars` returns
that failure as its error and simultaneously returns the best-effort
mapping assembled so far, namely the environment-derived variables. -/
theorem remote_failure_surfaced (fs : FS) (p : Parser) (blocks : Blocks) (fns : List String)
    (e : String) (h : p.remoteVariablesLoader = some (Except.error e)) :
    (p.loadVars fs blocks fns).2.2 = some e ∧
    (p.loadVars fs blocks fns).2.1 = p.tfEnvVars.getD [] := by
  unfold Parser.loadVars
  rw [h]
  exact ⟨rfl, rfl⟩

/-- Witness for `remote_failure_surfaced` at a concrete parser whose remote
loader fails with "tfc down" while the environment supplies `region`. -/
theorem remote_failure_surfaced_witness :
    (remFailParser.loadVars emptyFS [] []).2.2 = some "tfc down" ∧
    (remFailParser.loadVars emptyFS [] []).2.1 = [("region", CtyValue.str "env")] :=
  remote_failure_surfaced emptyFS remFailParser [] [] "tfc down" rfl

/-- C9: `loadVars` aliases the parser's environment map.  When `tfEnvVars`
is non-nil, the parser returned by `loadVars` stores exactly the combined
mapping in that field, so values merged from the other sources (for
example every direct input) end up in it. -/
theorem loadVars_env_map_aliasing (fs : FS) (p : Parser) (blocks : Blocks) (fns : List String)
    (m : VarMap) (h : p.tfEnvVars = some m) :
    (p.loadVars fs blocks fns).1.tfEnvVars = some (p.loadVars fs blocks fns).2.1 ∧
    (∀ im k v, p.inputVars = some im → remoteErr p = none → eErr fs fns = none →
      lookupLast im k = some v → (p.loadVars fs blocks fns).2.1.find k = some v) := by
  constructor
  · rw [loadVars_parser_char]
    exact storeEnv_some p m _ h
  · intro im k v him hrem herr hlk
    have hchar : (p.loadVars fs blocks fns).2.1.find k =
        orOpt (lookupLast (p.inputVars.getD []) k)
          (orOpt (eContrib fs fns k)
            (orOpt (dContrib fs p.defaultVarFiles k)
              (orOpt (lookupLast (remoteEntries p) k) ((p.tfEnvVars.getD []).find k)))) := by
      rw [loadVars_map_char p fs blocks fns hrem k, herr]
    rw [hchar, him, Option.getD_some, hlk]
    rfl

/-- Witness for `loadVars_env_map_aliasing`: after one run over
`aliasParser` the environment field holds the combined map, which contains
the direct input `other`. -/
theorem loadVars_env_map_aliasing_witness :
    (aliasParser.loadVars emptyFS [] []).1.tfEnvVars
      = some (aliasParser.loadVars emptyFS [] []).2.1 ∧
    (aliasParser.loadVars emptyFS [] []).2.1.find "other" = some (CtyValue.str "in") :=
  ⟨(loadVars_env_map_aliasing emptyFS aliasParser [] [] [("region", CtyValue.str "env")] rfl).1,
   (loadVars_env_map_aliasing emptyFS aliasParser [] [] [("region", CtyValue.str "env")] rfl).2
     [("other", CtyValue.str "in")] "other" (CtyValue.str "in") rfl rfl rfl (by decide)⟩

/-- C4: parsing a variable file is lenient per key.  A readable file is
never rejected: every recovered attribute is bound to its evaluated value,
whatever diagnostics its expression produced — a malformed expression only
degrades its own key to the not-set value, as the concrete file with a
good and a bad attribute shows. -/
theorem loadVarFile_lenient :
    (∀ (fs : FS) (filename : String) (src : VarFileSrc),
      filename ≠ "" → fs.readFile filename = some src →
      ∃ m, loadVarFile fs filename = Except.ok m ∧
        ((src.attrs.map VarAttr.name).Nodup →
          ∀ a ∈ src.attrs, m.find a.name = some a.value)) ∧
    loadVarFile lenFS "f.tfvars" =
      Except.ok [("bad", CtyValue.nilVal), ("good", CtyValue.str "v")] := by
  constructor
  · intro fs filename src hne hrf
    refine ⟨src.attrs.foldl (fun m a => m.insert a.name a.value) [], ?_, ?_⟩
    · unfold loadVarFile
      rw [if_neg hne, hrf]
    · intro hnodup a ha
      have hfold : ∀ (attrs : List VarAttr) (m : VarMap),
          attrs.foldl (fun m a => m.insert a.name a.value) m
            = mergeInto m (attrs.map (fun a => (a.name, a.value))) := by
        intro attrs
        induction attrs with
        | nil => intro m; rfl
        | cons b attrs ih => intro m; rw [List.foldl_cons, List.map_cons]; exact ih _
      have hnod : NodupKeys (src.attrs.map (fun a => (a.name, a.value))) := by
        unfold NodupKeys
        rw [List.map_map]
        exact hnodup
      rw [hfold, find_mergeInto,
        mem_lookupLast _ hnod a.name a.value
          (List.mem_map_of_mem (fun a => (a.name, a.value)) ha)]
      rfl
  · decide

/-- Witness for `loadVarFile_lenient` at the concrete lenient file: both
attributes are returned, the malformed one mapped to the not-set value. -/
theorem loadVarFile_lenient_witness :
    ∃ m, loadVarFile lenFS "f.tfvars" = Except.ok m ∧
      (((⟨false, [⟨"good", CtyValue.str "v", false⟩, ⟨"bad", CtyValue.nilVal, true⟩]⟩ :
          VarFileSrc).attrs.map VarAttr.name).Nodup →
        ∀ a ∈ (⟨false, [⟨"good", CtyValue.str "v", false⟩, ⟨"bad", CtyValue.nilVal, true⟩]⟩ :
          VarFileSrc).attrs, m.find a.name = some a.value) :=
  loadVarFile_lenient.1 lenFS "f.tfvars"
    ⟨false, [⟨"good", CtyValue.str "v", false⟩, ⟨"bad", CtyValue.nilVal, true⟩]⟩
    (by decide) (by decide)

/-- C7 counterexample: the OS environment entry `TF_VAR_region=a=b` does
not bind `region` to the verbatim value "a=b"; the split on every "="
yields three pieces, so the entry is skipped entirely. -/
theorem tf_env_verbatim_cex :
    ¬((tfEnvVarsOf ["TF_VAR_region=a=b"] []).find "region" = some (CtyValue.str "a=b")) := by
  decide

/-- C7 amended: the resolved environment map is the project-scoped
bindings overlaid on the OS bindings, where an OS entry contributes only
when the text after the `TF_VAR_` marker splits on "=" into exactly two
pieces (name and verbatim value, neither containing "="), while a
project-scoped entry always contributes its value verbatim and overrides
the OS entry of the same name. -/
theorem tf_env_vars_amended :
    (∀ (environ : List String) (pe : List (String × String)) (k : String),
      (tfEnvVarsOf environ pe).find k =
        orOpt (lookupLast (projectEnvEntries pe) k) (lookupLast (osEnvEntries environ) k)) ∧
    (tfEnvVarsOf ["TF_VAR_region=us-east-1"] []).find "region"
      = some (CtyValue.str "us-east-1") ∧
    (tfEnvVarsOf ["TF_VAR_region=a=b"] []).find "region" = none ∧
    (tfEnvVarsOf ["TF_VAR_region=us-east-1"] [("TF_VAR_region", "eu=west")]).find "region"
      = some (CtyValue.str "eu=west") :=
  ⟨tfEnvVarsOf_find, by decide, by decide, by decide⟩

/-- C1: variable precedence.  When all six sources are present and the
explicit files load, `loadVars` succeeds and resolves every key by the
fixed overlay order — direct input over explicit files over default/auto
files over remote over project-scoped environment over OS environment.  In
the concrete scenario (`terraform.tfvars` sets `region="us-east-1"`,
`a.auto.tfvars` sets `region="us-west-2"`), a direct input
`region=eu-west-1` wins, and without direct input the auto file wins. -/
theorem loadVars_precedence :
    (∀ (fs : FS) (p : Parser) (blocks : Blocks) (fns : List String)
       (pe : List (String × String)) (rem : VarMap),
      p.tfEnvVars = some (tfEnvVarsOf fs.environ pe) →
      p.remoteVariablesLoader = some (Except.ok rem) →
      (∀ f ∈ fns, eIsOk (loadVarFile fs f) = true) →
      (p.loadVars fs blocks fns).2.2 = none ∧
      ∀ k, (p.loadVars fs blocks fns).2.1.find k =
        orOpt (lookupLast (p.inputVars.getD []) k)
          (orOpt (dContrib fs fns k)
            (orOpt (dContrib fs p.defaultVarFiles k)
              (orOpt (lookupLast rem k)
                (orOpt (lookupLast (projectEnvEntries pe) k)
                  (lookupLast (osEnvEntries fs.environ) k)))))) ∧
    (scenParserDirect.loadVars scenFS [] scenParserDirect.tfvarsPaths).2.1.find "region"
      = some (CtyValue.str "eu-west-1") ∧
    (scenParserNoDirect.loadVars scenFS [] scenParserNoDirect.tfvarsPaths).2.1.find "region"
      = some (CtyValue.str "us-west-2") := by
  refine ⟨?_, by decide, by decide⟩
  intro fs p blocks fns pe rem henv hrl hok
  have hre : remoteErr p = none := by unfold remoteErr; rw [hrl]
  have hrent : remoteEntries p = rem := by unfold remoteEntries; rw [hrl]
  have herr : eErr fs fns = none := eErr_none_of_ok fs fns hok
  constructor
  · rw [loadVars_err_char p fs blocks fns hre]
    exact herr
  · intro k
    have hchar : (p.loadVars fs blocks fns).2.1.find k =
        orOpt (lookupLast (p.inputVars.getD []) k)
          (orOpt (eContrib fs fns k)
            (orOpt (dContrib fs p.defaultVarFiles k)
              (orOpt (lookupLast (remoteEntries p) k) ((p.tfEnvVars.getD []).find k)))) := by
      rw [loadVars_map_char p fs blocks fns hre k, herr]
    rw [hchar, eContrib_eq_dContrib fs fns hok k, hrent, henv, Option.getD_some,
      tfEnvVarsOf_find]

/-- Witness for `loadVars_precedence` over `sixFS`/`sixParser`, where every
one of the six sources binds `region`. -/
theorem loadVars_precedence_witness :
    (sixParser.loadVars sixFS [] sixParser.tfvarsPaths).2.2 = none ∧
    (sixParser.loadVars sixFS [] sixParser.tfvarsPaths).2.1.find "region" =
      orOpt (lookupLast (sixParser.inputVars.getD []) "region")
        (orOpt (dContrib sixFS sixParser.tfvarsPaths "region")
          (orOpt (dContrib sixFS sixParser.defaultVarFiles "region")
            (orOpt (lookupLast [("region", CtyValue.str "remote")] "region")
              (orOpt (lookupLast (projectEnvEntries [("TF_VAR_region", "proj")]) "region")
                (lookupLast (osEnvEntries sixFS.environ) "region"))))) :=
  ⟨(loadVars_precedence.1 sixFS sixParser [] sixParser.tfvarsPaths
      [("TF_VAR_region", "proj")] [("region", CtyValue.str "remote")] rfl rfl (by decide)).1,
   (loadVars_precedence.1 sixFS sixParser [] sixParser.tfvarsPaths
      [("TF_VAR_region", "proj")] [("region", CtyValue.str "remote")] rfl rfl (by decide)).2
     "region"⟩

/-- C2 counterexample: `d/vars.tfvars` exists, is readable, and its content
is malformed (the parse reports diagnostics and the single recovered
attribute does not evaluate), yet `loadVars` with it as the explicit
variable file returns no error — refuting the claim that a malformed
explicit file aborts resolution. -/
theorem explicit_malformed_cex :
    malFS.readFile "d/vars.tfvars"
      = some ⟨true, [⟨"x", CtyValue.nilVal, true⟩]⟩ ∧
    malParser.tfvarsPaths = ["d/vars.tfvars"] ∧
    (malParser.loadVars malFS [] malParser.tfvarsPaths).2.2 = none := by
  decide

/-- C2 amended: an explicit variable-file path that fails `os.Stat` is
dropped, with a warning, when the option is applied, so it never reaches
resolution; resolution then succeeds whenever every surviving explicit
file loads (readable content, malformed or not); and an explicit file that
fails to load — the only failure being an unreadable file — aborts
`loadVars` with an error. -/
theorem explicit_tfvars_handling :
    (∀ (fs : FS) (p : Parser) (paths : List String),
      (applyOption fs (POption.withTFVarsPaths paths) p).1.tfvarsPaths
        = (paths.map (pathJoin p.initialPath)).filter (fun q => fs.statOk q) ∧
      ∀ name ∈ paths, fs.statOk (pathJoin p.initialPath name) = false →
        ("passed tfvar file does not exist at " ++ pathJoin p.initialPath name)
          ∈ (applyOption fs (POption.withTFVarsPaths paths) p).2) ∧
    (∀ (fs : FS) (p : Parser) (blocks : Blocks) (fns : List String),
      remoteErr p = none → (∀ f ∈ fns, eIsOk (loadVarFile fs f) = true) →
      (p.loadVars fs blocks fns).2.2 = none) ∧
    (∀ (fs : FS) (p : Parser) (blocks : Blocks) (fns : List String) (f : String),
      f ∈ fns → eIsOk (loadVarFile fs f) = false →
      (p.loadVars fs blocks fns).2.2 ≠ none) := by
  refine ⟨?_, ?_, ?_⟩
  · intro fs p paths
    constructor
    · show (tfvarsPathsScan fs p.initialPath paths).1 = _
      induction paths with
      | nil => rfl
      | cons name rest ih =>
          by_cases h : fs.statOk (pathJoin p.initialPath name)
          · simp [tfvarsPathsScan, h, List.filter_cons, ih]
          · simp [tfvarsPathsScan, h, List.filter_cons, ih]
    · intro name hmem hmiss
      show _ ∈ (tfvarsPathsScan fs p.initialPath paths).2
      induction paths with
      | nil => simp at hmem
      | cons q rest ih =>
          rcases List.mem_cons.mp hmem with heq | htail
          · rw [heq] at hmiss ⊢
            simp [tfvarsPathsScan, hmiss]
          · by_cases h : fs.statOk (pathJoin p.initialPath q)
            · simp only [tfvarsPathsScan, h, if_pos]
              exact ih htail
            · simp only [tfvarsPathsScan, h, if_neg, Bool.false_eq_true, not_false_iff]
              exact List.mem_cons_of_mem _ (ih htail)
  · intro fs p blocks fns hrem hok
    rw [loadVars_err_char p fs blocks fns hrem]
    exact eErr_none_of_ok fs fns hok
  · intro fs p blocks fns f hmem hbad
    cases hrl : p.remoteVariablesLoader with
    | none =>
        have hre : remoteErr p = none := by unfold remoteErr; rw [hrl]
        rw [loadVars_err_char p fs blocks fns hre]
        exact eErr_some_of_bad fs fns f hmem hbad
    | some r =>
        cases r with
        | error e =>
            unfold Parser.loadVars
            rw [hrl]
            exact fun hc => Option.noConfusion hc
        | ok m =>
            have hre : remoteErr p = none := by unfold remoteErr; rw [hrl]
            rw [loadVars_err_char p fs blocks fns hre]
            exact eErr_some_of_bad fs fns f hmem hbad

/-- Witness for `explicit_tfvars_handling` over `malFS`: the existing path
is kept while the missing one is dropped with a warning; resolution over
the kept (readable, malformed) file succeeds; resolution over an
unreadable path fails. -/
theorem explicit_tfvars_handling_witness :
    (applyOption malFS (POption.withTFVarsPaths ["vars.tfvars", "missing.tfvars"])
        malParser).1.tfvarsPaths
      = ((["vars.tfvars", "missing.tfvars"].map (pathJoin "d")).filter
          (fun q => malFS.statOk q)) ∧
    ("passed tfvar file does not exist at " ++ pathJoin "d" "missing.tfvars")
      ∈ (applyOption malFS (POption.withTFVarsPaths ["vars.tfvars", "missing.tfvars"])
          malParser).2 ∧
    (malParser.loadVars malFS [] malParser.tfvarsPaths).2.2 = none ∧
    (malParser.loadVars malFS [] ["d/absent.tfvars"]).2.2 ≠ none :=
  ⟨(explicit_tfvars_handling.1 malFS malParser ["vars.tfvars", "missing.tfvars"]).1,
   (explicit_tfvars_handling.1 malFS malParser ["vars.tfvars", "missing.tfvars"]).2
     "missing.tfvars" (by decide) (by decide),
   explicit_tfvars_handling.2.1 malFS malParser [] malParser.tfvarsPaths rfl (by decide),
   explicit_tfvars_handling.2.2 malFS malParser [] ["d/absent.tfvars"] "d/absent.tfvars"
     (by decide) (by decide)⟩

/-- C8: variable resolution is deterministic.  Two `loadVars` runs over the
identical sources — the same file system and explicit paths, equal default
file lists, and Go maps (environment-derived, remote result, direct
inputs) that denote the same mapping even when their iteration orders
differ — produce the same error and extensionally the same variable
mapping. -/
theorem loadVars_deterministic (fs : FS) (blocks1 blocks2 : Blocks) (fns : List String)
    (p1 p2 : Parser)
    (hdf : p1.defaultVarFiles = p2.defaultVarFiles)
    (henv : OptVarMapEquiv p1.tfEnvVars p2.tfEnvVars)
    (hrem : OptRemoteEquiv p1.remoteVariablesLoader p2.remoteVariablesLoader)
    (hinp : OptVarMapEquiv p1.inputVars p2.inputVars) :
    (p1.loadVars fs blocks1 fns).2.2 = (p2.loadVars fs blocks2 fns).2.2 ∧
    ∀ k, (p1.loadVars fs blocks1 fns).2.1.find k
      = (p2.loadVars fs blocks2 fns).2.1.find k := by
  have henvfind : ∀ k, (p1.tfEnvVars.getD []).find k = (p2.tfEnvVars.getD []).find k := by
    cases h1 : p1.tfEnvVars with
    | none =>
        cases h2 : p2.tfEnvVars with
        | none => intro k; rfl
        | some m2 => rw [h1, h2] at henv; exact henv.elim
    | some m1 =>
        cases h2 : p2.tfEnvVars with
        | none => rw [h1, h2] at henv; exact henv.elim
        | some m2 =>
            rw [h1, h2] at henv
            have hveq : VarMapEquiv m1 m2 := henv
            intro k
            rw [Option.getD_some, Option.getD_some]
            exact find_perm m1 m2 hveq.1 hveq.2 k
  have hinpll : ∀ k, lookupLast (p1.inputVars.getD []) k
      = lookupLast (p2.inputVars.getD []) k := by
    cases h1 : p1.inputVars with
    | none =>
        cases h2 : p2.inputVars with
        | none => intro k; rfl
        | some m2 => rw [h1, h2] at hinp; exact hinp.elim
    | some m1 =>
        cases h2 : p2.inputVars with
        | none => rw [h1, h2] at hinp; exact hinp.elim
        | some m2 =>
            rw [h1, h2] at hinp
            have hveq : VarMapEquiv m1 m2 := hinp
            intro k
            rw [Option.getD_some, Option.getD_some]
            exact lookupLast_perm m1 m2 hveq.1 hveq.2 k
  cases h1 : p1.remoteVariablesLoader with
  | none =>
      cases h2 : p2.remoteVariablesLoader with
      | some r2 => rw [h1, h2] at hrem; cases r2 <;> exact hrem.elim
      | none =>
          have hre1 : remoteErr p1 = none := by unfold remoteErr; rw [h1]
          have hre2 : remoteErr p2 = none := by unfold remoteErr; rw [h2]
          have hrent1 : remoteEntries p1 = [] := by unfold remoteEntries; rw [h1]
          have hrent2 : remoteEntries p2 = [] := by unfold remoteEntries; rw [h2]
          constructor
          · rw [loadVars_err_char p1 fs blocks1 fns hre1,
              loadVars_err_char p2 fs blocks2 fns hre2]
          · intro k
            rw [loadVars_map_char p1 fs blocks1 fns hre1 k,
              loadVars_map_char p2 fs blocks2 fns hre2 k,
              hdf, hrent1, hrent2, hinpll k, henvfind k]
  | some r1 =>
      cases r1 with
      | error e1 =>
          cases h2 : p2.remoteVariablesLoader with
          | none => rw [h1, h2] at hrem; exact hrem.elim
          | some r2 =>
              cases r2 with
              | ok m2 => rw [h1, h2] at hrem; exact hrem.elim
              | error e2 =>
                  rw [h1, h2] at hrem
                  have he : e1 = e2 := hrem
                  constructor
                  · show (p1.loadVars fs blocks1 fns).2.2 = (p2.loadVars fs blocks2 fns).2.2
                    unfold Parser.loadVars
                    rw [h1, h2, he]
                  · intro k
                    unfold Parser.loadVars
                    rw [h1, h2]
                    exact henvfind k
      | ok m1 =>
          cases h2 : p2.remoteVariablesLoader with
          | none => rw [h1, h2] at hrem; exact hrem.elim
          | some r2 =>
              cases r2 with
              | error e2 => rw [h1, h2] at hrem; exact hrem.elim
              | ok m2 =>
                  rw [h1, h2] at hrem
                  have hveq : VarMapEquiv m1 m2 := hrem
                  have hre1 : remoteErr p1 = none := by unfold remoteErr; rw [h1]
                  have hre2 : remoteErr p2 = none := by unfold remoteErr; rw [h2]
                  have hrent1 : remoteEntries p1 = m1 := by unfold remoteEntries; rw [h1]
                  have hrent2 : remoteEntries p2 = m2 := by unfold remoteEntries; rw [h2]
                  have hllrem : ∀ k, lookupLast m1 k = lookupLast m2 k :=
                    lookupLast_perm m1 m2 hveq.1 hveq.2
                  constructor
                  · rw [loadVars_err_char p1 fs blocks1 fns hre1,
                      loadVars_err_char p2 fs blocks2 fns hre2]
                  · intro k
                    rw [loadVars_map_char p1 fs blocks1 fns hre1 k,
                      loadVars_map_char p2 fs blocks2 fns hre2 k,
                      hdf, hrent1, hrent2, hllrem k, hinpll k, henvfind k]

/-- Witness for `loadVars_deterministic`: the two concrete parsers list
every Go map in opposite iteration orders yet resolve identically. -/
theorem loadVars_deterministic_witness :
    (detParser1.loadVars emptyFS [] []).2.2 = (detParser2.loadVars emptyFS [] []).2.2 ∧
    (detParser1.loadVars emptyFS [] []).2.1.find "x"
      = (detParser2.loadVars emptyFS [] []).2.1.find "x" :=
  ⟨(loadVars_deterministic emptyFS [] [] [] detParser1 detParser2 rfl
      ⟨by decide, by unfold NodupKeys; decide⟩ ⟨by decide, by unfold NodupKeys; decide⟩
      ⟨by decide, by unfold NodupKeys; decide⟩).1,
   (loadVars_deterministic emptyFS [] [] [] detParser1 detParser2 rfl
      ⟨by decide, by unfold NodupKeys; decide⟩ ⟨by decide, by unfold NodupKeys; decide⟩
      ⟨by decide, by unfold NodupKeys; decide⟩).2 "x"⟩

theorem loadDirFiles_all_parse_bad (dir : String) : ∀ (entries : List DirEntry),
    (∀ e ∈ entries, e.isDir = false ∧
      (strEndsWith e.name ".tf" || strEndsWith e.name ".tf.json") = true ∧
      e.readErr = false ∧ e.parseErrs = true) →
    loadDirFiles dir false entries =
      Except.ok (entries.map (fun e => ⟨pathJoin dir e.name, e.blocksResult⟩),
                 entries.map (fun e => "skipping file: " ++ pathJoin dir e.name)) := by
  intro entries
  induction entries with
  | nil => intro _; rfl
  | cons e rest ih =>
      intro hall
      obtain ⟨h1, h2, h3, h4⟩ := hall e (List.mem_cons_self e rest)
      have hrest := ih (fun x hx => hall x (List.mem_cons_of_mem e hx))
      simp [loadDirFiles, h1, h2, h3, h4, hrest]

theorem parseDirectoryFiles_all_bad (p : Parser) (hstop : p.stopOnHCLError = false) :
    ∀ (files : List HclFile), (∀ f ∈ files, eIsOk f.blocksResult = false) →
    ∃ ws, p.parseDirectoryFiles files = Except.ok ([], ws) := by
  intro files
  induction files with
  | nil => intro _; exact ⟨[], rfl⟩
  | cons f rest ih =>
      intro hall
      obtain ⟨ws, hws⟩ := ih (fun x hx => hall x (List.mem_cons_of_mem f hx))
      cases hb : f.blocksResult with
      | ok rbs =>
          have hh := hall f (List.mem_cons_self f rest)
          rw [hb] at hh
          exact absurd hh (by simp [eIsOk])
      | error e =>
          refine ⟨("skipping file could not load blocks err: " ++ e) :: ws, ?_⟩
          simp [Parser.parseDirectoryFiles, hb, hstop, hws]

/-- C5: a directory whose recognized files are all readable but
unparseable (and so, per the spec, yield no blocks) makes non-strict
`ParseDirectory` fail with the fatal no-valid-configuration error, while
strict mode returns the parse diagnostic of the first failing file. -/
theorem only_unparseable_directory (w : World) (dir : String) (e0 : DirEntry)
    (rest : List DirEntry) (p1 p2 : Parser)
    (h1i : p1.initialPath = dir) (h1s : p1.stopOnHCLError = false)
    (h2i : p2.initialPath = dir) (h2s : p2.stopOnHCLError = true)
    (hrd : w.fs.readDir dir = some (e0 :: rest))
    (hall : ∀ e ∈ e0 :: rest, e.isDir = false ∧
      (strEndsWith e.name ".tf" || strEndsWith e.name ".tf.json") = true ∧
      e.readErr = false ∧ e.parseErrs = true ∧ eIsOk e.blocksResult = false) :
    (p1.ParseDirectory w).result = Except.error noValidFilesErr ∧
    (p2.ParseDirectory w).result = Except.error (parseDiag (pathJoin dir e0.name)) := by
  constructor
  · have hld : loadDirectory w.fs dir false =
        Except.ok ((e0 :: rest).map (fun e => ⟨pathJoin dir e.name, e.blocksResult⟩),
                   (e0 :: rest).map (fun e => "skipping file: " ++ pathJoin dir e.name)) := by
      unfold loadDirectory
      rw [hrd]
      exact loadDirFiles_all_parse_bad dir (e0 :: rest)
        (fun e he => ⟨(hall e he).1, (hall e he).2.1, (hall e he).2.2.1, (hall e he).2.2.2.1⟩)
    obtain ⟨ws, hws⟩ := parseDirectoryFiles_all_bad p1 h1s
      ((e0 :: rest).map (fun e => ⟨pathJoin dir e.name, e.blocksResult⟩))
      (by
        intro f hf
        obtain ⟨e, he, hfe⟩ := List.mem_map.mp hf
        rw [← hfe]
        exact (hall e he).2.2.2.2)
    unfold Parser.ParseDirectory
    rw [h1i, h1s]
    simp only [List.map_cons] at hws
    simp [hld, hws]
  · obtain ⟨h1, h2, h3, h4, _⟩ := hall e0 (List.mem_cons_self e0 rest)
    have hld : loadDirectory w.fs dir true =
        Except.error (parseDiag (pathJoin dir e0.name)) := by
      unfold loadDirectory
      rw [hrd]
      simp [loadDirFiles, h1, h2, h3, h4]
    unfold Parser.ParseDirectory
    rw [h2i, h2s]
    simp [hld]

/-- C6: a directory with one readable-but-unparseable file and one valid
file, in non-strict mode: the load keeps both cached files but warns about
the skipped one, the block sequence contains exactly the valid file's
blocks, and `ParseDirectory` succeeds with the skip warning recorded. -/
theorem mixed_directory_valid_blocks (w : World) (dir n1 n2 msg : String)
    (rbs : List RawBlock) (p : Parser) (root : Module) (mm wd : String)
    (hpi : p.initialPath = dir) (hps : p.stopOnHCLError = false)
    (hrec1 : (strEndsWith n1 ".tf" || strEndsWith n1 ".tf.json") = true)
    (hrec2 : (strEndsWith n2 ".tf" || strEndsWith n2 ".tf.json") = true)
    (hrbs : rbs ≠ [])
    (hrd : w.fs.readDir dir = some
      [⟨n1, false, false, true, Except.error msg⟩, ⟨n2, false, false, false, Except.ok rbs⟩])
    (hrm : p.remoteVariablesLoader = none)
    (htv : p.tfvarsPaths = [])
    (hml : w.moduleLoad = Except.ok mm)
    (hwd : w.getwd = Except.ok wd)
    (her : w.evalRun = Except.ok root) :
    loadDirectory w.fs dir false
      = Except.ok ([⟨pathJoin dir n1, Except.error msg⟩, ⟨pathJoin dir n2, Except.ok rbs⟩],
                   ["skipping file: " ++ pathJoin dir n1]) ∧
    p.parseDirectoryFiles
        [⟨pathJoin dir n1, Except.error msg⟩, ⟨pathJoin dir n2, Except.ok rbs⟩]
      = Except.ok (rbs.map newBlock, ["skipping file could not load blocks err: " ++ msg]) ∧
    (p.ParseDirectory w).result = Except.ok root ∧
    ("skipping file: " ++ pathJoin dir n1) ∈ (p.ParseDirectory w).warnings := by
  have hld : loadDirectory w.fs dir false
      = Except.ok ([⟨pathJoin dir n1, Except.error msg⟩, ⟨pathJoin dir n2, Except.ok rbs⟩],
                   ["skipping file: " ++ pathJoin dir n1]) := by
    unfold loadDirectory
    rw [hrd]
    simp [loadDirFiles, hrec1, hrec2]
  have hpd : p.parseDirectoryFiles
        [⟨pathJoin dir n1, Except.error msg⟩, ⟨pathJoin dir n2, Except.ok rbs⟩]
      = Except.ok (rbs.map newBlock,
                   ["skipping file could not load blocks err: " ++ msg]) := by
    simp [Parser.parseDirectoryFiles, hps]
  have hne : (rbs.map newBlock).isEmpty = false := by
    cases rbs with
    | nil => exact absurd rfl hrbs
    | cons b bs => rfl
  have hre : remoteErr p = none := by unfold remoteErr; rw [hrm]
  have hlv : (p.loadVars w.fs (rbs.map newBlock) p.tfvarsPaths).2.2 = none := by
    rw [loadVars_err_char p w.fs (rbs.map newBlock) p.tfvarsPaths hre, htv]
    rfl
  refine ⟨hld, hpd, ?_, ?_⟩
  · unfold Parser.ParseDirectory
    rw [hpi, hps]
    simp only [hld, hpd, hne, Bool.false_eq_true, if_false]
    cases hc : p.loadVars w.fs (rbs.map newBlock) p.tfvarsPaths with
    | mk p' r =>
        cases r with
        | mk mv err =>
            rw [hc] at hlv
            simp only at hlv
            subst hlv
            rw [hml, hwd, her]
  · unfold Parser.ParseDirectory
    rw [hpi, hps]
    simp only [hld, hpd, hne, Bool.false_eq_true, if_false]
    cases hc : p.loadVars w.fs (rbs.map newBlock) p.tfvarsPaths with
    | mk p' r =>
        cases r with
        | mk mv err =>
            rw [hc] at hlv
            simp only at hlv
            subst hlv
            rw [hml, hwd, her]
            simp

/-- Witness for `only_unparseable_directory` over the concrete two-file
unparseable directory. -/
theorem only_unparseable_directory_witness :
    (((New c5FS "d" []).1).ParseDirectory c5World).result = Except.error noValidFilesErr ∧
    (((New c5FS "d" [POption.stopOnHCLError]).1).ParseDirectory c5World).result
      = Except.error (parseDiag (pathJoin "d" "a.tf")) :=
  only_unparseable_directory c5World "d"
    ⟨"a.tf", false, false, true, Except.error "bad blocks a"⟩
    [⟨"b.tf", false, false, true, Except.error "bad blocks b"⟩]
    (New c5FS "d" []).1 (New c5FS "d" [POption.stopOnHCLError]).1
    rfl rfl rfl rfl (by decide) (by decide)

/-- Witness for `mixed_directory_valid_blocks` over the concrete mixed
directory: one bad file, one good file with a single block. -/
theorem mixed_directory_valid_blocks_witness :
    loadDirectory c6World.fs "d" false
      = Except.ok ([⟨pathJoin "d" "bad.tf", Except.error "boom"⟩,
                    ⟨pathJoin "d" "good.tf", Except.ok [c6Block]⟩],
                   ["skipping file: " ++ pathJoin "d" "bad.tf"]) ∧
    ((New c6FS "d" []).1).parseDirectoryFiles
        [⟨pathJoin "d" "bad.tf", Except.error "boom"⟩,
         ⟨pathJoin "d" "good.tf", Except.ok [c6Block]⟩]
      = Except.ok ([c6Block].map newBlock,
                   ["skipping file could not load blocks err: " ++ "boom"]) ∧
    (((New c6FS "d" []).1).ParseDirectory c6World).result = Except.ok c6Root ∧
    ("skipping file: " ++ pathJoin "d" "bad.tf")
      ∈ (((New c6FS "d" []).1).ParseDirectory c6World).warnings :=
  mixed_directory_valid_blocks c6World "d" "bad.tf" "good.tf" "boom" [c6Block]
    (New c6FS "d" []).1 c6Root "manifest" "/wd"
    rfl rfl (by decide) (by decide) (by decide) (by decide) rfl rfl rfl rfl rfl

theorem applyOption_keeps (fs : FS) (o : POption) (p : Parser) :
    (applyOption fs o p).1.initialPath = p.initialPath ∧
    (applyOption fs o p).1.defaultVarFiles = p.defaultVarFiles := by
  cases o with
  | withTFVarsPaths paths => exact ⟨rfl, rfl⟩
  | stopOnHCLError => exact ⟨rfl, rfl⟩
  | withTFEnvVars pe => exact ⟨rfl, rfl⟩
  | withPlanFlagVars vs => exact ⟨rfl, rfl⟩
  | withInputVars vars => exact ⟨rfl, rfl⟩
  | withRemoteVarLoader h t lw r =>
      by_cases hc : h = "" ∨ t = ""
      · simp [applyOption, hc]
      · simp [applyOption, hc]
  | withWorkspaceName n => exact ⟨rfl, rfl⟩
  | withWarningFn => exact ⟨rfl, rfl⟩

theorem foldl_opts_keeps (fs : FS) :
    ∀ (opts : List POption) (pw : Parser × List String),
      ((opts.foldl
          (fun pw o => ((applyOption fs o pw.1).1, pw.2 ++ (applyOption fs o pw.1).2))
          pw).1.initialPath = pw.1.initialPath) ∧
      ((opts.foldl
          (fun pw o => ((applyOption fs o pw.1).1, pw.2 ++ (applyOption fs o pw.1).2))
          pw).1.defaultVarFiles = pw.1.defaultVarFiles) := by
  intro opts
  induction opts with
  | nil => intro pw; exact ⟨rfl, rfl⟩
  | cons o opts ih =>
      intro pw
      rw [List.foldl_cons]
      constructor
      · rw [(ih _).1]
        exact (applyOption_keeps fs o pw.1).1
      · rw [(ih _).2]
        exact (applyOption_keeps fs o pw.1).2

/-- C10: `New` never fails on an unreadable initial directory.  The
listing error is discarded, so with the default variable files absent and
the directory unlistable the constructed parser has an empty
default-variable-file list, whatever options were passed; the unreadable
directory only surfaces later, as the fatal error of `ParseDirectory`. -/
theorem new_discards_readdir_error (fs : FS) (dir : String) (opts : List POption)
    (h1 : fs.statOk (pathJoin dir "terraform.tfvars") = false)
    (h2 : fs.statOk (pathJoin dir "terraform.tfvars" ++ ".json") = false)
    (h3 : fs.readDir dir = none) :
    (New fs dir opts).1.defaultVarFiles = [] ∧
    ∀ w : World, w.fs = fs →
      ((New fs dir opts).1.ParseDirectory w).result = Except.error (readDirErr dir) := by
  have hdvf : discoverDefaultVarFiles fs dir = [] := by
    unfold discoverDefaultVarFiles
    simp [h1, h2, h3]
  have hbase : (New fs dir opts).1.defaultVarFiles = [] := by
    unfold New
    rw [(foldl_opts_keeps fs opts _).2]
    exact hdvf
  refine ⟨hbase, ?_⟩
  intro w hw
  have hip : (New fs dir opts).1.initialPath = dir := by
    unfold New
    rw [(foldl_opts_keeps fs opts _).1]
  unfold Parser.ParseDirectory
  rw [hip, hw]
  unfold loadDirectory
  rw [h3]

/-- Witness for `new_discards_readdir_error` over the empty file system. -/
theorem new_discards_readdir_error_witness :
    (New emptyFS "dd" []).1.defaultVarFiles = [] ∧
    (((New emptyFS "dd" []).1).ParseDirectory c10World).result
      = Except.error (readDirErr "dd") :=
  ⟨(new_discards_readdir_error emptyFS "dd" [] rfl rfl rfl).1,
   (new_discards_readdir_error emptyFS "dd" [] rfl rfl rfl).2 c10World rfl⟩

end Infracost
